import Mathlib

/-!
Verification development for the AbstractManager repository (Go).

The Go sources are shallowly embedded: pure functions become Lean
functions, Redis/DB state becomes explicit state passing, `error`
returns become `Except`, and `interface{}` values decoded from JSON are
modelled by an explicit value type.  Where a source file contains two
concatenated revisions of the same package, the later revision (the one
the claim line numbers point at) is the one embedded.

Modelling conventions, used throughout:
* Go `float64` numbers are modelled as `ℚ` (all operations the code
  performs on them - comparisons and decimal parsing - are exact).
* JSON (de)serialisation performed by `encoding/json` on the example
  `model.User` struct is embedded at the JSON-value level
  (`encUser` / `decUser`); the time-stamp fields, which no claim
  touches, are omitted from the model.
* Redis is a finite map from keys to stored payloads; TTLs are carried
  as integers alongside values.
-/

namespace AbstractManager

/-- Leaf JSON/Go values (`nil`, `bool`, `float64`, `string`) as produced
by `json.Unmarshal` into `interface{}`. -/
inductive JLeaf where
  | null
  | jbool (b : Bool)
  | num (q : ℚ)
  | str (s : String)
  deriving DecidableEq, Repr

/-- Values stored in a decoded JSON object: either a leaf, or one nested
object of leaves.  The code (`applyRedisBatchFilter`) only ever descends
one level, through the `data` field, so one nesting level is modelled. -/
inductive JVal where
  | leaf (l : JLeaf)
  | obj (fs : List (String × JLeaf))
  deriving DecidableEq, Repr

/-- Values carried in a `FilterParam.Value` (`interface{}` bound from a
request): a scalar or an array of scalars. -/
inductive PVal where
  | scalar (l : JLeaf)
  | arr (xs : List JLeaf)
  deriving DecidableEq, Repr

/-- Go map lookup, modelled on an association list (first match). -/
def alookup {α : Type} : List (String × α) → String → Option α
  | [], _ => none
  | (k, v) :: rest, key => if k = key then some v else alookup rest key

/-- Digit value of a character, `none` for non-digits. -/
def digitVal (c : Char) : Option ℕ :=
  if c.isDigit then some (c.toNat - 48) else none

/-- Parse a non-empty all-digit character list into a natural number. -/
def parseDigits (cs : List Char) : Option ℕ :=
  match cs with
  | [] => none
  | _ =>
    cs.foldl (fun acc c =>
      match acc, digitVal c with
      | some n, some d => some (n * 10 + d)
      | _, _ => none) (some 0)

/-- Model of Go `strconv.ParseFloat(s, 64)` on the decimal fragment the
repository exercises: optional sign, digits, optional fractional part.
Exponent/hex/inf forms are outside the model. -/
def parseGoFloat (s : String) : Option ℚ :=
  let cs := s.data
  let (sign, body) : ℚ × List Char :=
    match cs with
    | '-' :: rest => (-1, rest)
    | '+' :: rest => (1, rest)
    | _ => (1, cs)
  let intPart := body.takeWhile (·.isDigit)
  let rest := body.dropWhile (·.isDigit)
  match rest with
  | [] =>
    match parseDigits intPart with
    | some n => some (sign * n)
    | none => none
  | '.' :: fracs =>
    if fracs.all (·.isDigit) ∧ (intPart ≠ [] ∨ fracs ≠ []) then
      let ip : ℚ := ((parseDigits intPart).getD 0 : ℕ)
      let fp : ℚ := ((parseDigits fracs).getD 0 : ℕ)
      some (sign * (ip + fp / ((10 : ℚ) ^ fracs.length)))
    else none
  | _ => none

/-- Model of `toFloat64` (second revision in `part_006`) applied to a
decoded JSON value: `float64` passes through, strings go through
`strconv.ParseFloat`, everything else errors. -/
def toFloat64V : JVal → Option ℚ
  | .leaf (.num q) => some q
  | .leaf (.str s) => parseGoFloat s
  | _ => none

/-- Model of `toFloat64` applied to a `FilterParam.Value`. -/
def toFloat64P : PVal → Option ℚ
  | .scalar (.num q) => some q
  | .scalar (.str s) => parseGoFloat s
  | _ => none

/-- Model of the example `model.User` record (`id`, `username`, `age`;
time stamps omitted - no claim touches them). -/
structure URec where
  id : ℕ
  username : String
  age : ℤ
  deriving DecidableEq, Repr

/-- JSON encoding of a `URec`, as produced by `json.Marshal` with the
struct's json tags. -/
def encUser (u : URec) : List (String × JVal) :=
  [("id", .leaf (.num (u.id : ℚ))),
   ("username", .leaf (.str u.username)),
   ("age", .leaf (.num (u.age : ℚ)))]

/-- Decode a JSON number into an unsigned integer field the way
`encoding/json` does: whole non-negative numbers only. -/
def ratToNat (q : ℚ) : Option ℕ :=
  if q.den = 1 ∧ 0 ≤ q.num then some q.num.toNat else none

/-- Decode a JSON number into a signed integer field: whole numbers only. -/
def ratToInt (q : ℚ) : Option ℤ :=
  if q.den = 1 then some q.num else none

/-- Decode one `uint`-typed struct field: absent means zero value, a
non-number or fractional value is an unmarshal error. -/
def decNatField (fs : List (String × JVal)) (k : String) : Option ℕ :=
  match alookup fs k with
  | none => some 0
  | some (.leaf (.num q)) => ratToNat q
  | some _ => none

/-- Decode one `int`-typed struct field. -/
def decIntField (fs : List (String × JVal)) (k : String) : Option ℤ :=
  match alookup fs k with
  | none => some 0
  | some (.leaf (.num q)) => ratToInt q
  | some _ => none

/-- Decode one `string`-typed struct field. -/
def decStrField (fs : List (String × JVal)) (k : String) : Option String :=
  match alookup fs k with
  | none => some ""
  | some (.leaf (.str s)) => some s
  | some _ => none

/-- Model of `json.Unmarshal` of an object into `model.User`. -/
def decUser (fs : List (String × JVal)) : Option URec := do
  let i ← decNatField fs "id"
  let nm ← decStrField fs "username"
  let a ← decIntField fs "age"
  pure ⟨i, nm, a⟩

theorem ratToNat_natCast (n : ℕ) : ratToNat (n : ℚ) = some n := by
  simp [ratToNat]

theorem ratToInt_intCast (z : ℤ) : ratToInt (z : ℚ) = some z := by
  simp [ratToInt]

/-- Serialising a user and deserialising it yields the same user. -/
theorem decUser_encUser (u : URec) : decUser (encUser u) = some u := by
  simp [decUser, encUser, decNatField, decIntField, decStrField, alookup,
    ratToNat_natCast, ratToInt_intCast]

/-! ## Redis cache state and the single-record write path
(`service/writedown_single.go`, second revision, lines 194-350, and
`service/lookup_single.go`). -/

/-- Payload stored under one Redis key, as seen by readers: a non-string
reply, a string that is not a JSON object, or a decoded JSON object. -/
inductive CacheVal where
  | notStr
  | badJson (s : String)
  | jobj (fs : List (String × JVal))
  deriving DecidableEq, Repr

/-- Redis string keyspace: value and remaining TTL per key. -/
def KVSt : Type := String → Option (CacheVal × ℤ)

/-- Empty keyspace. -/
def kvEmpty : KVSt := fun _ => none

/-- Point update of the keyspace (`SET` and friends). -/
def kvSet (st : KVSt) (key : String) (v : CacheVal × ℤ) : KVSt :=
  fun k => if k = key then some v else st k

/-- Options of `WritedownSingle` (`WritedownSingleOptions`). -/
structure WritedownSingleOptions where
  expiration : ℤ
  overwrite : Bool
  nx : Bool
  xx : Bool
  deriving DecidableEq, Repr

/-- Model of `(*ServiceManager[T]).WritedownSingle` (second revision,
lines 203-234): default options on `nil`; with `Overwrite` and `NX` both
unset an existing key is an error; then `NX` selects `SetNX`, else `XX`
selects `SetXX`, else plain `SET`.  Serialisation of the record is the
user's JSON encoding. -/
def writedownSingle (st : KVSt) (key : String) (data : URec)
    (opts? : Option WritedownSingleOptions) : Except String KVSt :=
  let opts := opts?.getD ⟨3600, true, false, false⟩
  let payload : CacheVal × ℤ := (.jobj (encUser data), opts.expiration)
  if !opts.overwrite && !opts.nx && (st key).isSome then
    .error "key already exists"
  else if opts.nx then
    .ok (if (st key).isSome then st else kvSet st key payload)
  else if opts.xx then
    .ok (if (st key).isSome then kvSet st key payload else st)
  else
    .ok (kvSet st key payload)

/-- Errors of the single-record cache lookup. -/
inductive LookupErr where
  | redisNil
  | decodeFail
  | fallbackUnsupported
  deriving DecidableEq, Repr

/-- Options of `LookupSingle` (`LookupSingleOptions`). -/
structure LookupSingleOptions where
  cacheExpire : ℤ
  fallbackToDB : Bool
  refresh : Bool
  deriving DecidableEq, Repr

/-- Model of `(*ServiceManager[T]).LookupSingle`
(`lookup_single.go` lines 20-49): unless `Refresh` is set, read the key
and decode; on miss, a set `FallbackToDB` yields the unsupported-fallback
error, otherwise the miss (`redis.Nil`) is returned. -/
def lookupSingle (st : KVSt) (key : String)
    (opts? : Option LookupSingleOptions) : Except LookupErr URec :=
  let readCache := opts?.isNone || !(opts?.map (·.refresh)).getD false
  let hit : Option URec :=
    if readCache then
      match st key with
      | some (.jobj fs, _) => decUser fs
      | _ => none
    else none
  match hit with
  | some u => .ok u
  | none =>
    if (opts?.map (·.fallbackToDB)).getD false then
      .error .fallbackUnsupported
    else
      .error .redisNil

/-- Error of the optimistic-version write. -/
inductive VersionErr where
  | versionOutdated (current provided : ℤ)
  deriving DecidableEq, Repr

/-- Two-slot state touched by `WritedownSingleWithVersion` for one key:
the value at `key` and the marker at `key:version`. -/
structure VState where
  value : Option (List (String × JVal))
  version : Option ℤ
  deriving DecidableEq, Repr

/-- Model of `(*ServiceManager[T]).WritedownSingleWithVersion` (second
revision, lines 280-311): inside `WATCH`, read the marker; if a marker
exists and is `>=` the provided version, fail and change nothing;
otherwise write value and marker in one `MULTI/EXEC` transaction (the
transaction is one atomic step of the model). -/
def writedownSingleWithVersion (st : VState) (data : URec) (version : ℤ) :
    Except VersionErr Unit × VState :=
  match st.version with
  | some cv =>
    if cv ≥ version then
      (.error (.versionOutdated cv version), st)
    else
      (.ok (), ⟨some (encUser data), some version⟩)
  | none => (.ok (), ⟨some (encUser data), some version⟩)

/-- Claim C2: after a successful `WritedownSingleWithVersion(key, r, v)`,
any subsequent call with `v' ≤ v` fails with a version conflict and
leaves both the stored value and the version marker unchanged, while the
success itself updated value and marker together. -/
theorem writedownSingleWithVersion_monotonic
    (st st₁ : VState) (r r' : URec) (v v' : ℤ)
    (hfst : writedownSingleWithVersion st r v = (.ok (), st₁))
    (hle : v' ≤ v) :
    st₁ = ⟨some (encUser r), some v⟩ ∧
    writedownSingleWithVersion st₁ r' v' =
      (.error (.versionOutdated v v'), st₁) := by
  have hst₁ : st₁ = ⟨some (encUser r), some v⟩ := by
    unfold writedownSingleWithVersion at hfst
    rcases h : st.version with _ | cv
    · rw [h] at hfst
      exact (congrArg Prod.snd hfst).symm
    · rw [h] at hfst
      by_cases hge : cv ≥ v
      · simp [hge] at hfst
      · simp [hge] at hfst
        exact hfst.symm
  refine ⟨hst₁, ?_⟩
  subst hst₁
  unfold writedownSingleWithVersion
  simp [hle]

/-- Witness for C2 at a concrete input. -/
theorem writedownSingleWithVersion_monotonic_witness :
    writedownSingleWithVersion ⟨some (encUser ⟨1, "a", 20⟩), some 2⟩
        ⟨2, "b", 30⟩ 1 =
      (.error (.versionOutdated 2 1), ⟨some (encUser ⟨1, "a", 20⟩), some 2⟩) :=
  (writedownSingleWithVersion_monotonic ⟨none, none⟩
    ⟨some (encUser ⟨1, "a", 20⟩), some 2⟩ ⟨1, "a", 20⟩ ⟨2, "b", 30⟩ 2 1
    rfl (by decide)).2

/-- Projection of a `WritedownSingle` outcome at one key (used to state
concrete facts about the written state). -/
def wdResultAt (r : Except String KVSt) (k : String) : Option (CacheVal × ℤ) :=
  match r with
  | .ok st => st k
  | .error _ => none

/-- Claim C7 counterexample: passing both exclusivity flags does not
fail with invalid options - on an absent key the call succeeds and
writes the value (NX wins). -/
theorem writedownSingle_both_flags_writes :
    (writedownSingle kvEmpty "k" ⟨1, "a", 20⟩ (some ⟨60, true, true, true⟩)).isOk
      = true ∧
    wdResultAt (writedownSingle kvEmpty "k" ⟨1, "a", 20⟩
        (some ⟨60, true, true, true⟩)) "k" =
      some (.jobj (encUser ⟨1, "a", 20⟩), 60) := by
  constructor
  · rfl
  · simp [writedownSingle, wdResultAt, kvSet, kvEmpty]

/-- Claim C7 (amended): `WritedownSingle` maps `NX` to set-if-absent and
`XX` to set-if-present; when both flags are passed `NX` takes precedence
(the call behaves as set-if-absent) and no error is raised.  Stated for
calls with `Overwrite` set, which bypasses the separate exists guard. -/
theorem writedownSingle_flag_semantics
    (st : KVSt) (key : String) (data : URec)
    (opts : WritedownSingleOptions) (hov : opts.overwrite = true) :
    writedownSingle st key data (some opts) =
      .ok (if opts.nx then
             (if (st key).isSome then st
              else kvSet st key (.jobj (encUser data), opts.expiration))
           else if opts.xx then
             (if (st key).isSome then
                kvSet st key (.jobj (encUser data), opts.expiration)
              else st)
           else kvSet st key (.jobj (encUser data), opts.expiration)) := by
  unfold writedownSingle
  simp [hov]
  split_ifs <;> rfl

/-- Witness for the amended C7: with both flags set on a present key the
call succeeds and leaves the existing value in place (set-if-absent
behaviour). -/
theorem writedownSingle_flag_semantics_witness :
    writedownSingle (kvSet kvEmpty "k" (.notStr, 5)) "k" ⟨1, "a", 20⟩
        (some ⟨60, true, true, true⟩) =
      .ok (kvSet kvEmpty "k" (.notStr, 5)) := by
  have h := writedownSingle_flag_semantics (kvSet kvEmpty "k" (.notStr, 5))
    "k" ⟨1, "a", 20⟩ ⟨60, true, true, true⟩ rfl
  simpa [kvSet, kvEmpty] using h

/-- Claim C9: a plain overwrite `WritedownSingle(key, r, ttl)` always
succeeds, and an immediately following `LookupSingle(key)` returns a
record equal to `r` (through the JSON encode/decode round trip). -/
theorem writedown_lookup_roundtrip
    (st : KVSt) (key : String) (r : URec) (opts : WritedownSingleOptions)
    (hov : opts.overwrite = true) (hnx : opts.nx = false)
    (hxx : opts.xx = false) :
    ∃ st₁, writedownSingle st key r (some opts) = .ok st₁ ∧
      lookupSingle st₁ key none = .ok r := by
  refine ⟨kvSet st key (.jobj (encUser r), opts.expiration), ?_, ?_⟩
  · unfold writedownSingle
    simp [hov, hnx, hxx]
  · unfold lookupSingle
    simp [kvSet, decUser_encUser]

/-- Witness for C9 at a concrete input. -/
theorem writedown_lookup_roundtrip_witness :
    ∃ st₁, writedownSingle kvEmpty "user:7" ⟨7, "bob", 33⟩
        (some ⟨120, true, false, false⟩) = .ok st₁ ∧
      lookupSingle st₁ "user:7" none = .ok ⟨7, "bob", 33⟩ :=
  writedown_lookup_roundtrip kvEmpty "user:7" ⟨7, "bob", 33⟩
    ⟨120, true, false, false⟩ rfl rfl rfl

/-! ## Filter translators
(`util/filter_translator/grom_filter.go` and the Redis translators,
second revision of `part_006`, lines 675-1070). -/

/-- Front-end filter parameter (`FilterParam`). -/
structure FilterParam where
  field : String
  operator : String
  value : PVal
  deriving DecidableEq, Repr

/-- Translated GORM-side filters, one constructor per filter struct. -/
inductive GormF where
  | eqF (field : String) (v : PVal)
  | neF (field : String) (v : PVal)
  | gtF (field : String) (v : PVal)
  | gteF (field : String) (v : PVal)
  | ltF (field : String) (v : PVal)
  | lteF (field : String) (v : PVal)
  | likeF (field : String) (s : String)
  | inF (field : String) (vs : List JLeaf)
  | betweenF (field : String) (mn mx : JLeaf)
  | isnullF (field : String)
  | isnotnullF (field : String)
  deriving DecidableEq, Repr

/-- Translated Redis-side filters, one constructor per filter struct. -/
inductive RedisF where
  | eqF (field : String) (v : PVal)
  | neF (field : String) (v : PVal)
  | gtF (field : String) (v : PVal)
  | gteF (field : String) (v : PVal)
  | ltF (field : String) (v : PVal)
  | lteF (field : String) (v : PVal)
  | likeF (field : String) (v : PVal)
  | inF (field : String) (vs : List JLeaf)
  | betweenF (field : String) (mn mx : JLeaf)
  | isnullF (field : String)
  | isnotnullF (field : String)
  deriving DecidableEq, Repr

/-- Registry `Translate` errors: unregistered operator, validation
failure, or a failure inside the translator itself. -/
inductive TransErr where
  | unsupportedOperator (op : String)
  | invalidPredicate (msg : String)
  | translateError (msg : String)
  deriving DecidableEq, Repr

/-- One registered translator: `Validate` and `Translate`. -/
structure TranslatorDef (F : Type) where
  validate : FilterParam → Except String Unit
  translate : FilterParam → Except String F

/-- Go `param.Value == nil` (a `nil` interface / JSON null). -/
def pvalIsNil : PVal → Bool
  | .scalar .null => true
  | _ => false

/-- Shared validation of the simple GORM comparison translators:
non-empty field, non-nil value. -/
def gormScalarValidate (p : FilterParam) : Except String Unit :=
  if p.field = "" then .error "field cannot be empty"
  else if pvalIsNil p.value then .error "value cannot be nil"
  else .ok ()

/-- GORM translators as registered by `NewGormTranslatorRegistry`. -/
def gormTranslatorFor : String → Option (TranslatorDef GormF)
  | "eq" => some ⟨gormScalarValidate, fun p => .ok (.eqF p.field p.value)⟩
  | "ne" => some ⟨gormScalarValidate, fun p => .ok (.neF p.field p.value)⟩
  | "gt" => some ⟨gormScalarValidate, fun p => .ok (.gtF p.field p.value)⟩
  | "gte" => some ⟨gormScalarValidate, fun p => .ok (.gteF p.field p.value)⟩
  | "lt" => some ⟨gormScalarValidate, fun p => .ok (.ltF p.field p.value)⟩
  | "lte" => some ⟨gormScalarValidate, fun p => .ok (.lteF p.field p.value)⟩
  | "like" => some ⟨fun p =>
      if p.field = "" then .error "field cannot be empty"
      else match p.value with
        | .scalar (.str _) => .ok ()
        | _ => .error "value must be string",
      fun p => match p.value with
        | .scalar (.str s) => .ok (.likeF p.field s)
        | _ => .error "value must be string for LIKE operator"⟩
  | "in" => some ⟨fun p =>
      if p.field = "" then .error "field cannot be empty"
      else match p.value with
        | .arr [] => .error "value array cannot be empty"
        | .arr _ => .ok ()
        | _ => .error "value must be array",
      fun p => match p.value with
        | .arr vs => .ok (.inF p.field vs)
        | _ => .error "value must be array for IN operator"⟩
  | "between" => some ⟨fun p =>
      if p.field = "" then .error "field cannot be empty"
      else match p.value with
        | .arr vs =>
          if vs.length = 2 then .ok ()
          else .error "value array must contain exactly 2 elements"
        | _ => .error "value must be array",
      fun p => match p.value with
        | .arr [a, b] => .ok (.betweenF p.field a b)
        | _ => .error "value must be array with 2 elements for BETWEEN operator"⟩
  | "isnull" => some ⟨fun p =>
      if p.field = "" then .error "field cannot be empty" else .ok (),
      fun p => .ok (.isnullF p.field)⟩
  | "isnotnull" => some ⟨fun p =>
      if p.field = "" then .error "field cannot be empty" else .ok (),
      fun p => .ok (.isnotnullF p.field)⟩
  | _ => none

/-- Shared validation of the simple Redis comparison translators
(second revision): non-empty field and non-nil value, one message. -/
def redisScalarValidate (p : FilterParam) : Except String Unit :=
  if p.field = "" || pvalIsNil p.value then .error "invalid params"
  else .ok ()

/-- Redis translators as registered by `NewRedisTranslatorRegistry`
(second revision - note the symbolic comparison operator names, the
field-free `like`/`in` validation, the emptiness-free `in` validation
and the always-passing `isnull`/`isnotnull` validation). -/
def redisTranslatorFor : String → Option (TranslatorDef RedisF)
  | "=" => some ⟨redisScalarValidate, fun p => .ok (.eqF p.field p.value)⟩
  | "!=" => some ⟨redisScalarValidate, fun p => .ok (.neF p.field p.value)⟩
  | ">" => some ⟨redisScalarValidate, fun p => .ok (.gtF p.field p.value)⟩
  | ">=" => some ⟨redisScalarValidate, fun p => .ok (.gteF p.field p.value)⟩
  | "<" => some ⟨redisScalarValidate, fun p => .ok (.ltF p.field p.value)⟩
  | "<=" => some ⟨redisScalarValidate, fun p => .ok (.lteF p.field p.value)⟩
  | "like" => some ⟨fun p =>
      match p.value with
      | .scalar (.str _) => .ok ()
      | _ => .error "value must be string",
      fun p => .ok (.likeF p.field p.value)⟩
  | "in" => some ⟨fun p =>
      match p.value with
      | .arr _ => .ok ()
      | _ => .error "value must be array",
      fun p => match p.value with
        | .arr vs => .ok (.inF p.field vs)
        | _ => .error "interface conversion panics"⟩
  | "between" => some ⟨fun p =>
      match p.value with
      | .arr vs =>
        if vs.length = 2 then .ok () else .error "between needs 2 values"
      | _ => .error "between needs 2 values",
      fun p => match p.value with
        | .arr (a :: b :: _) => .ok (.betweenF p.field a b)
        | _ => .error "index out of range panics"⟩
  | "isnull" => some ⟨fun _ => .ok (), fun p => .ok (.isnullF p.field)⟩
  | "isnotnull" => some ⟨fun _ => .ok (), fun p => .ok (.isnotnullF p.field)⟩
  | _ => none

/-- Registry `Translate`: look the operator up, validate, translate. -/
def registryTranslate {F : Type} (find : String → Option (TranslatorDef F))
    (p : FilterParam) : Except TransErr F :=
  match find p.operator with
  | none => .error (.unsupportedOperator p.operator)
  | some t =>
    match t.validate p with
    | .error m => .error (.invalidPredicate m)
    | .ok () =>
      match t.translate p with
      | .error m => .error (.translateError m)
      | .ok f => .ok f

/-- `GormTranslatorRegistry.Translate` on the default registry. -/
def gormTranslate (p : FilterParam) : Except TransErr GormF :=
  registryTranslate gormTranslatorFor p

/-- `RedisTranslatorRegistry.Translate` on the default registry. -/
def redisTranslate (p : FilterParam) : Except TransErr RedisF :=
  registryTranslate redisTranslatorFor p

/-- `TranslateBatch`: translate in order, short-circuiting on the first
failure. -/
def translateBatch {F : Type} (tr : FilterParam → Except TransErr F) :
    List FilterParam → Except TransErr (List F)
  | [] => .ok []
  | p :: rest => do
    let f ← tr p
    let fs ← translateBatch tr rest
    pure (f :: fs)

/-- Claim C3: the two default registries do not support the same
operator set - the relational registry registers `eq` (and `ne`, `gt`,
...) while the key-value registry registers `=` (and `!=`, `>`, ...), so
the same predicate list does not translate symmetrically.  The repo's
own usage (`part_005` examples, `executeLookup`'s relational fallback)
passes one predicate list to both registries. -/
theorem registries_operator_asymmetry :
    (gormTranslate ⟨"age", "eq", .scalar (.num 18)⟩).isOk = true ∧
    redisTranslate ⟨"age", "eq", .scalar (.num 18)⟩ =
      .error (.unsupportedOperator "eq") ∧
    (redisTranslate ⟨"age", "=", .scalar (.num 18)⟩).isOk = true ∧
    gormTranslate ⟨"age", "=", .scalar (.num 18)⟩ =
      .error (.unsupportedOperator "=") := by
  refine ⟨rfl, rfl, rfl, rfl⟩

/-- Claim C4 counterexample: the key-value registry's `in` translator
accepts an empty array - translation succeeds instead of failing with an
invalid-predicate error. -/
theorem redis_in_accepts_empty_array :
    redisTranslate ⟨"age", "in", .arr []⟩ = .ok (.inF "age" []) := rfl

/-- Value is a string scalar. -/
def isStrP : PVal → Bool
  | .scalar (.str _) => true
  | _ => false

/-- Value is an array. -/
def isArrP : PVal → Bool
  | .arr _ => true
  | _ => false

/-- Length of an array value (0 for non-arrays). -/
def arrLenP : PVal → ℕ
  | .arr xs => xs.length
  | _ => 0

/-- Validation success implies the translator stage itself succeeds, for
every translator of the relational registry. -/
theorem gormTranslatorFor_sound (op : String) (t : TranslatorDef GormF)
    (h : gormTranslatorFor op = some t) (p : FilterParam)
    (hv : t.validate p = .ok ()) : (t.translate p).isOk = true := by
  obtain ⟨field, pop, value⟩ := p
  unfold gormTranslatorFor at h
  split at h
  · cases h; rfl
  · cases h; rfl
  · cases h; rfl
  · cases h; rfl
  · cases h; rfl
  · cases h; rfl
  · cases h
    rcases value with ⟨_ | b | q | s⟩ | xs <;>
      by_cases hf : field = "" <;> simp_all [Except.isOk, Except.toBool]
  · cases h
    rcases value with ⟨_ | b | q | s⟩ | ⟨_ | ⟨a, rest⟩⟩ <;>
      by_cases hf : field = "" <;> simp_all [Except.isOk, Except.toBool]
  · cases h
    rcases value with ⟨_ | b | q | s⟩ | ⟨_ | ⟨a, _ | ⟨b2, _ | ⟨c, rest⟩⟩⟩⟩ <;>
      by_cases hf : field = "" <;> simp_all [Except.isOk, Except.toBool]
  · cases h; rfl
  · cases h; rfl
  · exact Option.noConfusion h

/-- Validation success implies the translator stage itself succeeds, for
every translator of the key-value registry. -/
theorem redisTranslatorFor_sound (op : String) (t : TranslatorDef RedisF)
    (h : redisTranslatorFor op = some t) (p : FilterParam)
    (hv : t.validate p = .ok ()) : (t.translate p).isOk = true := by
  obtain ⟨field, pop, value⟩ := p
  unfold redisTranslatorFor at h
  split at h
  · cases h; rfl
  · cases h; rfl
  · cases h; rfl
  · cases h; rfl
  · cases h; rfl
  · cases h; rfl
  · cases h; rfl
  · cases h
    rcases value with ⟨_ | b | q | s⟩ | xs <;> simp_all [Except.isOk, Except.toBool]
  · cases h
    rcases value with ⟨_ | b | q | s⟩ | ⟨_ | ⟨a, _ | ⟨b2, _ | ⟨c, rest⟩⟩⟩⟩ <;>
      simp_all [Except.isOk, Except.toBool]
  · cases h; rfl
  · cases h; rfl
  · exact Option.noConfusion h

/-- Claim C4 (amended): both registries fail with the
unsupported-operator error exactly on unregistered operators, and shape
constraints are enforced during validation - `between` requires an array
of exactly two values and `like` a string value in both registries;
`in` requires a non-empty array in the relational registry, while the
key-value registry's `in` accepts any array including an empty one.
Validation failures happen before a filter is produced (`Translate`
returns only the error) and before any I/O: the translator-stage error
is never reached. -/
theorem translate_validation_characterisation (p : FilterParam) :
    (gormTranslatorFor p.operator = none →
      gormTranslate p = .error (.unsupportedOperator p.operator)) ∧
    (redisTranslatorFor p.operator = none →
      redisTranslate p = .error (.unsupportedOperator p.operator)) ∧
    (p.operator = "between" →
      (((gormTranslate p).isOk ↔
          p.field ≠ "" ∧ isArrP p.value ∧ arrLenP p.value = 2) ∧
       ((redisTranslate p).isOk ↔ isArrP p.value ∧ arrLenP p.value = 2))) ∧
    (p.operator = "like" →
      (((gormTranslate p).isOk ↔ p.field ≠ "" ∧ isStrP p.value) ∧
       ((redisTranslate p).isOk ↔ isStrP p.value))) ∧
    (p.operator = "in" →
      (((gormTranslate p).isOk ↔
          p.field ≠ "" ∧ isArrP p.value ∧ arrLenP p.value ≠ 0) ∧
       ((redisTranslate p).isOk ↔ isArrP p.value))) ∧
    (∀ m, gormTranslate p ≠ .error (.translateError m)) ∧
    (∀ m, redisTranslate p ≠ .error (.translateError m)) := by
  obtain ⟨field, op, value⟩ := p
  refine ⟨?_, ?_, ?_, ?_, ?_, ?_, ?_⟩
  · intro h
    simp only [gormTranslate, registryTranslate, h]
  · intro h
    simp only [redisTranslate, registryTranslate, h]
  · rintro rfl
    constructor
    · simp only [gormTranslate, registryTranslate, gormTranslatorFor]
      rcases value with l | ⟨_ | ⟨a, _ | ⟨b, _ | ⟨c, rest⟩⟩⟩⟩ <;>
        by_cases hf : field = "" <;>
        simp [hf, isArrP, arrLenP, Except.isOk, Except.toBool]
    · simp only [redisTranslate, registryTranslate, redisTranslatorFor]
      rcases value with l | ⟨_ | ⟨a, _ | ⟨b, _ | ⟨c, rest⟩⟩⟩⟩ <;>
        simp [isArrP, arrLenP, Except.isOk, Except.toBool]
  · rintro rfl
    constructor
    · simp only [gormTranslate, registryTranslate, gormTranslatorFor]
      rcases value with ⟨_ | b | q | s⟩ | xs <;>
        by_cases hf : field = "" <;>
        simp [hf, isStrP, Except.isOk, Except.toBool]
    · simp only [redisTranslate, registryTranslate, redisTranslatorFor]
      rcases value with ⟨_ | b | q | s⟩ | xs <;> simp [isStrP, Except.isOk, Except.toBool]
  · rintro rfl
    constructor
    · simp only [gormTranslate, registryTranslate, gormTranslatorFor]
      rcases value with ⟨_ | b | q | s⟩ | ⟨_ | ⟨a, rest⟩⟩ <;>
        by_cases hf : field = "" <;>
        simp [hf, isArrP, arrLenP, Except.isOk, Except.toBool]
    · simp only [redisTranslate, registryTranslate, redisTranslatorFor]
      rcases value with ⟨_ | b | q | s⟩ | xs <;>
        simp [isArrP, Except.isOk, Except.toBool]
  · intro m
    simp only [gormTranslate, registryTranslate]
    rcases hfind : gormTranslatorFor op with _ | t
    · simp
    · rcases hv : t.validate ⟨field, op, value⟩ with m2 | u
      · simp [hv]
      · cases u
        have hok := gormTranslatorFor_sound op t hfind ⟨field, op, value⟩ hv
        rcases ht : t.translate ⟨field, op, value⟩ with m3 | f
        · rw [ht] at hok
          exact absurd hok (by simp [Except.isOk, Except.toBool])
        · simp [hv, ht]
  · intro m
    simp only [redisTranslate, registryTranslate]
    rcases hfind : redisTranslatorFor op with _ | t
    · simp
    · rcases hv : t.validate ⟨field, op, value⟩ with m2 | u
      · simp [hv]
      · cases u
        have hok := redisTranslatorFor_sound op t hfind ⟨field, op, value⟩ hv
        rcases ht : t.translate ⟨field, op, value⟩ with m3 | f
        · rw [ht] at hok
          exact absurd hok (by simp [Except.isOk, Except.toBool])
        · simp [hv, ht]

/-- Witness for the amended C4 at concrete inputs. -/
theorem translate_validation_characterisation_witness :
    gormTranslate ⟨"age", "zzz", .scalar .null⟩ =
      .error (.unsupportedOperator "zzz") ∧
    ((gormTranslate ⟨"age", "between", .arr [.num 1, .num 2]⟩).isOk ↔
      ("age" : String) ≠ "" ∧ isArrP (.arr [.num 1, .num 2]) ∧
        arrLenP (.arr [.num 1, .num 2]) = 2) := by
  constructor
  · exact (translate_validation_characterisation ⟨"age", "zzz", .scalar .null⟩).1
      rfl
  · exact ((translate_validation_characterisation
      ⟨"age", "between", .arr [.num 1, .num 2]⟩).2.2.1 rfl).1

/-! ## Key-value filter application
(second revision of `part_006`, lines 698-848: `applyRedisBatchFilter`
and the per-operator `ApplyRedis` implementations). -/

/-- Keyspace as seen by the filter path: what `MGET` returns per key. -/
def RStore : Type := String → Option CacheVal

/-- Commands issued against the Redis client by the filter path.  Each
`client.MGet(ctx, keys...)` call is one `mget` entry carrying all its
keys, so the trace length counts network round trips. -/
inductive RedisCmd where
  | mget (keys : List String)
  deriving DecidableEq, Repr

/-- Field extraction of `applyRedisBatchFilter`: top-level first, then
one level of nesting through the `data` object. -/
def extractField (data : List (String × JVal)) (field : String) : Option JVal :=
  match alookup data field with
  | some v => some v
  | none =>
    match alookup data "data" with
    | some (.obj inner) => (alookup inner field).map JVal.leaf
    | _ => none

/-- Per-key retention decision of the `applyRedisBatchFilter` loop: a
missing key, a non-string reply and an undecodable payload are skipped;
otherwise the extracted field (if any) is tested. -/
def batchKeep (store : RStore) (field : String) (filterFunc : JVal → Bool)
    (k : String) : Bool :=
  match store k with
  | some (.jobj data) =>
    match extractField data field with
    | some v => filterFunc v
    | none => false
  | _ => false

/-- Model of `applyRedisBatchFilter`: on a non-empty candidate set, one
`MGET` of all keys, then the in-memory retention loop; on an empty set,
no command at all. -/
def applyRedisBatchFilter (store : RStore) (keys : List String)
    (field : String) (filterFunc : JVal → Bool) :
    List String × List RedisCmd :=
  if keys.isEmpty then ([], [])
  else (keys.filter (batchKeep store field filterFunc), [.mget keys])

/-- Go `fmt.Sprintf` of a leaf value (`%v`). -/
def goReprLeaf : JLeaf → String
  | .null => "<nil>"
  | .jbool true => "true"
  | .jbool false => "false"
  | .num q => if q.den = 1 then toString q.num else toString q.num ++ "/" ++ toString q.den
  | .str s => s

/-- Go `fmt.Sprintf("%v", ...)` of a decoded JSON value.  Whole numbers
print as Go prints them; the fractional-float and map print forms are a
documented model simplification (no claim depends on them). -/
def goRepr : JVal → String
  | .leaf l => goReprLeaf l
  | .obj fs =>
    "map[" ++ String.intercalate " "
      (fs.map (fun kv => kv.1 ++ ":" ++ goReprLeaf kv.2)) ++ "]"

/-- Go `fmt.Sprintf("%v", ...)` of a filter-parameter value. -/
def goPRepr : PVal → String
  | .scalar l => goReprLeaf l
  | .arr xs => "[" ++ String.intercalate " " (xs.map goReprLeaf) ++ "]"

/-- Go `strings.Contains`. -/
def goContains (s sub : String) : Bool :=
  decide (List.IsInfix sub.data s.data)

/-- Model of `RedisFilter.ApplyRedis` for every translated filter
(second revision).  The unchecked type assertion in the `like` filter is
a run-time panic in Go, modelled as an error (unreachable through the
validating registry). -/
def applyRedisF (store : RStore) (f : RedisF) (keys : List String) :
    Except String (List String × List RedisCmd) :=
  match f with
  | .eqF field v =>
    .ok (applyRedisBatchFilter store keys field
      (fun val => goRepr val == goPRepr v))
  | .neF field v =>
    .ok (applyRedisBatchFilter store keys field
      (fun val => goRepr val != goPRepr v))
  | .gtF field v =>
    let target := (toFloat64P v).getD 0
    .ok (applyRedisBatchFilter store keys field
      (fun val => match toFloat64V val with
        | some x => decide (target < x)
        | none => false))
  | .gteF field v =>
    let target := (toFloat64P v).getD 0
    .ok (applyRedisBatchFilter store keys field
      (fun val => match toFloat64V val with
        | some x => decide (target ≤ x)
        | none => false))
  | .ltF field v =>
    let target := (toFloat64P v).getD 0
    .ok (applyRedisBatchFilter store keys field
      (fun val => match toFloat64V val with
        | some x => decide (x < target)
        | none => false))
  | .lteF field v =>
    let target := (toFloat64P v).getD 0
    .ok (applyRedisBatchFilter store keys field
      (fun val => match toFloat64V val with
        | some x => decide (x ≤ target)
        | none => false))
  | .likeF field v =>
    match v with
    | .scalar (.str s) =>
      .ok (applyRedisBatchFilter store keys field
        (fun val => goContains (goRepr val).toLower s.toLower))
    | _ => .error "interface conversion panic"
  | .inF field vs =>
    .ok (applyRedisBatchFilter store keys field
      (fun val => vs.any (fun w => goReprLeaf w == goRepr val)))
  | .betweenF field mn mx =>
    let minV := (toFloat64P (.scalar mn)).getD 0
    let maxV := (toFloat64P (.scalar mx)).getD 0
    .ok (applyRedisBatchFilter store keys field
      (fun val => match toFloat64V val with
        | some x => decide (minV ≤ x) && decide (x ≤ maxV)
        | none => false))
  | .isnullF field =>
    .ok (applyRedisBatchFilter store keys field
      (fun val => val == .leaf .null))
  | .isnotnullF field =>
    .ok (applyRedisBatchFilter store keys field
      (fun val => val != .leaf .null))

/-- Model of `ApplyRedisFilters`: fold the filters over the candidate
key set, accumulating the issued commands. -/
def applyRedisFilters (store : RStore) (initialKeys : List String) :
    List RedisF → Except String (List String × List RedisCmd)
  | [] => .ok (initialKeys, [])
  | f :: rest => do
    let (ks, tr) ← applyRedisF store f initialKeys
    let (ks2, tr2) ← applyRedisFilters store ks rest
    pure (ks2, tr ++ tr2)

/-- Spec-side retention rule for the numeric operators, written from the
claim: the decoded field value (top level, then one nesting level) must
coerce - from a number or numeric string - to a number satisfying the
comparison; anything else, including a coercion failure, excludes the
key (fails closed). -/
def numericRetainSpec (store : RStore) (field : String) (cmp : ℚ → Bool)
    (k : String) : Bool :=
  match (do
    let payload ← store k
    match payload with
    | .jobj data => extractField data field
    | _ => none : Option JVal) with
  | some v =>
    match toFloat64V v with
    | some x => cmp x
    | none => false
  | none => false

theorem batchKeep_numeric (store : RStore) (field : String) (cmp : ℚ → Bool)
    (k : String) :
    batchKeep store field
      (fun val => match toFloat64V val with
        | some x => cmp x
        | none => false) k = numericRetainSpec store field cmp k := by
  unfold batchKeep numericRetainSpec
  rcases store k with _ | cv
  · rfl
  · rcases cv with _ | s | data
    · rfl
    · rfl
    · rcases hex : extractField data field with _ | v <;>
        simp [Option.bind, hex]

/-- Trace of one batched stage. -/
def stageTrace (keys : List String) : List RedisCmd :=
  if keys.isEmpty then [] else [.mget keys]

theorem applyRedisBatchFilter_numeric (store : RStore) (keys : List String)
    (field : String) (cmp : ℚ → Bool) :
    applyRedisBatchFilter store keys field
      (fun val => match toFloat64V val with
        | some x => cmp x
        | none => false) =
    (keys.filter (numericRetainSpec store field cmp), stageTrace keys) := by
  unfold applyRedisBatchFilter stageTrace
  by_cases h : keys.isEmpty
  · rw [List.isEmpty_iff] at h
    subst h
    simp
  · simp only [h, if_neg, Bool.false_eq_true, not_false_eq_true]
    congr 1
    exact List.filter_congr (fun k _ => batchKeep_numeric store field cmp k)

/-- Cache contents of the claim's scenario: `user:1` holding
`(id 1, age 25)` and `user:2` holding `(id 2, age 40)`. -/
def scenarioStore : RStore := fun k =>
  if k = "user:1" then some (.jobj [("id", .leaf (.num 1)), ("age", .leaf (.num 25))])
  else if k = "user:2" then some (.jobj [("id", .leaf (.num 2)), ("age", .leaf (.num 40))])
  else none

/-- Claim C8: every numeric key-value filter stage issues one batched
`MGET` for the whole candidate set (none when it is empty) and retains
exactly the keys whose decoded field value coerces to a number
satisfying the comparison, failing closed otherwise; and the concrete
scenario - `between [18,30]` over entries with ages 25 and 40 - goes
through translation and application to retain exactly the age-25 key. -/
theorem redis_numeric_filters_characterised
    (store : RStore) (keys : List String) (field : String)
    (tv : PVal) (mn mx : JLeaf) :
    (applyRedisF store (.gtF field tv) keys =
      .ok (keys.filter (numericRetainSpec store field
            (fun x => decide ((toFloat64P tv).getD 0 < x))), stageTrace keys)) ∧
    (applyRedisF store (.gteF field tv) keys =
      .ok (keys.filter (numericRetainSpec store field
            (fun x => decide ((toFloat64P tv).getD 0 ≤ x))), stageTrace keys)) ∧
    (applyRedisF store (.ltF field tv) keys =
      .ok (keys.filter (numericRetainSpec store field
            (fun x => decide (x < (toFloat64P tv).getD 0))), stageTrace keys)) ∧
    (applyRedisF store (.lteF field tv) keys =
      .ok (keys.filter (numericRetainSpec store field
            (fun x => decide (x ≤ (toFloat64P tv).getD 0))), stageTrace keys)) ∧
    (applyRedisF store (.betweenF field mn mx) keys =
      .ok (keys.filter (numericRetainSpec store field
            (fun x => decide ((toFloat64P (.scalar mn)).getD 0 ≤ x) &&
                      decide (x ≤ (toFloat64P (.scalar mx)).getD 0))),
          stageTrace keys)) ∧
    (redisTranslate ⟨"age", "between", .arr [.num 18, .num 30]⟩ =
      .ok (.betweenF "age" (.num 18) (.num 30))) ∧
    (applyRedisFilters scenarioStore ["user:1", "user:2"]
        [.betweenF "age" (.num 18) (.num 30)] =
      .ok (["user:1"], [.mget ["user:1", "user:2"]])) := by
  refine ⟨?_, ?_, ?_, ?_, ?_, rfl, rfl⟩
  · simp only [applyRedisF, applyRedisBatchFilter_numeric]
  · simp only [applyRedisF, applyRedisBatchFilter_numeric]
  · simp only [applyRedisF, applyRedisBatchFilter_numeric]
  · simp only [applyRedisF, applyRedisBatchFilter_numeric]
  · simp only [applyRedisF, applyRedisBatchFilter_numeric]

/-! ## Cache-aside single-key lookup
(`http_router/cache_get_router_group.go` lines 283-365:
`extractIDFromKey` and `getByKeyCacheAside`). -/

/-- Errors of the cache-aside path.  Both parse failures of
`extractIDFromKey` ("invalid key format" and "failed to parse ID") are
the claim's InvalidKeyFormat; "record not found" is NotFound. -/
inductive CAErr where
  | unmarshalFailed
  | invalidKeyFormat
  | notFound
  deriving DecidableEq, Repr

/-- Model of `strconv.ParseUint(s, 10, 32)`: a non-empty all-digit
string whose value fits 32 bits. -/
def parseUint32 (s : String) : Option ℕ :=
  match parseDigits s.data with
  | some n => if n < 2 ^ 32 then some n else none
  | none => none

/-- Splitting helper: accumulate the current segment (reversed) while
walking the characters. -/
def goSplitAux (sep : Char) : List Char → List Char → List (List Char)
  | [], acc => [acc.reverse]
  | c :: rest, acc =>
    if c = sep then acc.reverse :: goSplitAux sep rest []
    else goSplitAux sep rest (c :: acc)

/-- Model of Go `strings.Split` with a one-character separator (empty
segments preserved, result never empty). -/
def goSplit (s : String) (sep : Char) : List String :=
  (goSplitAux sep s.data []).map (fun cs => ⟨cs⟩)

/-- Model of `extractIDFromKey`: split on the delimiter, require at
least two segments, parse the trailing segment as the identity. -/
def extractIDFromKey (key : String) : Except CAErr ℕ :=
  let parts := goSplit key ':'
  if parts.length < 2 then .error .invalidKeyFormat
  else
    match parseUint32 ((parts.getLast?).getD "") with
    | some n => .ok n
    | none => .error .invalidKeyFormat

/-- Router configuration relevant to the cache-aside path. -/
structure CacheAsideCfg where
  cacheAsideTTL : ℤ
  cacheHitRefresh : Bool
  deriving DecidableEq, Repr

/-- Result of a relational query (`QueryResult`): the rows and the
count; the pagination fields stay zero when no page size is given
(`service_model.go` lines 60-66 and 169-173). -/
structure QueryResult where
  data : List URec
  total : ℤ
  deriving DecidableEq, Repr

/-- Model of `(*ServiceManager[T]).GetQueryWithoutTransaction`
(`service_model.go` lines 132-176) as the cache-aside path invokes it,
with `nil` options: apply the query condition to the table, `Count` the
conditioned rows, then `Find` them; `applyQueryOptions` with `nil`
options returns the query unchanged (lines 189-191), so no
select/order/paging applies.  The relational table is the injected
record list and a gorm condition is a predicate on records
(`Where("id = ?", id)` becomes `fun u => u.id == i`). -/
def getQueryWithoutTransaction (db : List URec)
    (queryFunc : Option (URec → Bool)) : QueryResult :=
  let conditioned :=
    match queryFunc with
    | some f => db.filter f
    | none => db
  ⟨conditioned, (conditioned.length : ℤ)⟩

/-- Outcome of one cache-aside lookup: the result (record and hit flag)
plus the cache state after the call. -/
structure CAOutcome where
  outcome : Except CAErr (URec × Bool)
  cache : KVSt

/-- Model of `getByKeyCacheAside`: check Redis first; on a hit decode
and, if configured, refresh the TTL; on a miss parse the identity out of
the key, query the store, fail with NotFound on an empty result, else
cache the record under the configured TTL and return it with a miss
flag. -/
def getByKeyCacheAside (cfg : CacheAsideCfg) (st : KVSt) (db : List URec)
    (key : String) : CAOutcome :=
  match st key with
  | some (payload, _) =>
    match payload with
    | .jobj fs =>
      match decUser fs with
      | some r =>
        ⟨.ok (r, true),
         if cfg.cacheHitRefresh then kvSet st key (payload, cfg.cacheAsideTTL)
         else st⟩
      | none => ⟨.error .unmarshalFailed, st⟩
    | _ => ⟨.error .unmarshalFailed, st⟩
  | none =>
    match extractIDFromKey key with
    | .error e => ⟨.error e, st⟩
    | .ok i =>
      match (getQueryWithoutTransaction db (some (fun u => u.id == i))).data with
      | [] => ⟨.error .notFound, st⟩
      | r :: _ =>
        ⟨.ok (r, false), kvSet st key (.jobj (encUser r), cfg.cacheAsideTTL)⟩

/-- Claim C5: the cache-aside lookup checks the cache first - a
decodable hit is returned with the hit flag and its TTL is refreshed
exactly when refresh-on-hit is configured; a miss parses the trailing
key segment as the identity (InvalidKeyFormat when that fails, cache
untouched), queries the store (NotFound on an empty result, cache
untouched), and otherwise caches the found record under the configured
TTL and returns it with the miss flag. -/
theorem getByKeyCacheAside_behaviour (cfg : CacheAsideCfg) (st : KVSt)
    (db : List URec) (key : String) :
    (∀ fs ttl0 r, st key = some (.jobj fs, ttl0) → decUser fs = some r →
      getByKeyCacheAside cfg st db key =
        ⟨.ok (r, true),
         if cfg.cacheHitRefresh then kvSet st key (.jobj fs, cfg.cacheAsideTTL)
         else st⟩) ∧
    (st key = none → extractIDFromKey key = .error .invalidKeyFormat →
      getByKeyCacheAside cfg st db key = ⟨.error .invalidKeyFormat, st⟩) ∧
    (∀ i, st key = none → extractIDFromKey key = .ok i →
      (getQueryWithoutTransaction db (some (fun u => u.id == i))).data = [] →
      getByKeyCacheAside cfg st db key = ⟨.error .notFound, st⟩) ∧
    (∀ i r rest, st key = none → extractIDFromKey key = .ok i →
      (getQueryWithoutTransaction db (some (fun u => u.id == i))).data =
        r :: rest →
      getByKeyCacheAside cfg st db key =
        ⟨.ok (r, false), kvSet st key (.jobj (encUser r), cfg.cacheAsideTTL)⟩) := by
  refine ⟨?_, ?_, ?_, ?_⟩
  · intro fs ttl0 r hk hdec
    unfold getByKeyCacheAside
    rw [hk]
    simp [hdec]
  · intro hk hex
    unfold getByKeyCacheAside
    rw [hk]
    simp [hex]
  · intro i hk hex hdb
    unfold getByKeyCacheAside
    rw [hk]
    simp [hex, hdb]
  · intro i r rest hk hex hdb
    unfold getByKeyCacheAside
    rw [hk]
    simp [hex, hdb]

/-- Witness for C5 at concrete inputs: a miss on `user:1` loads the
record from the store and caches it; an unparsable key fails with the
invalid-key-format error. -/
theorem getByKeyCacheAside_behaviour_witness :
    getByKeyCacheAside ⟨100, false⟩ kvEmpty [⟨1, "alice", 25⟩] "user:1" =
      ⟨.ok (⟨1, "alice", 25⟩, false),
       kvSet kvEmpty "user:1" (.jobj (encUser ⟨1, "alice", 25⟩), 100)⟩ ∧
    getByKeyCacheAside ⟨100, false⟩ kvEmpty [⟨1, "alice", 25⟩] "plainkey" =
      ⟨.error .invalidKeyFormat, kvEmpty⟩ := by
  constructor
  · exact (getByKeyCacheAside_behaviour ⟨100, false⟩ kvEmpty
      [⟨1, "alice", 25⟩] "user:1").2.2.2 1 ⟨1, "alice", 25⟩ [] rfl rfl rfl
  · exact (getByKeyCacheAside_behaviour ⟨100, false⟩ kvEmpty
      [⟨1, "alice", 25⟩] "plainkey").2.1 rfl rfl

/-! ## Batch cache lookup and the cache-to-database reconciliation run
(`LookupQuery` in the second revision of `part_001`, lines 213-272, and
`syncCacheToDatabase` in the example `model/user.go`, lines 114-177). -/

/-- Go `fmt.Sprintf("%v", item)` where `item` is a `*User`: ampersand,
then the brace-delimited field values. -/
def goStructRepr (u : URec) : String :=
  "&\x7b" ++ toString u.id ++ " " ++ u.username ++ " " ++ toString u.age ++ "\x7d"

/-- Model of `lookupFromDB`'s result construction: the external query
result keyed by `fmt.Sprintf("%s:%v", CacheKeyName, item)` (the cache
writes it also performs do not matter to any claim and are omitted). -/
def lookupFromDB (dbResults : List URec) (cacheKeyName : String) :
    List (String × URec) :=
  dbResults.map (fun u => (cacheKeyName ++ ":" ++ goStructRepr u, u))

/-- Model of `LookupQuery`'s scan of the `MGET` replies, in key order:
absent keys and non-string replies are recorded as missed; a reply that
fails to unmarshal aborts the whole call with an error; decoded records
are collected. -/
def lookupScan (store : RStore) :
    List String → Except String (List (String × URec) × List String)
  | [] => .ok ([], [])
  | k :: rest =>
    match store k with
    | none => (lookupScan store rest).map (fun p => (p.1, k :: p.2))
    | some .notStr => (lookupScan store rest).map (fun p => (p.1, k :: p.2))
    | some (.badJson _) =>
      .error ("failed to unmarshal cache data for key " ++ k)
    | some (.jobj fs) =>
      match decUser fs with
      | none => .error ("failed to unmarshal cache data for key " ++ k)
      | some u => (lookupScan store rest).map (fun p => ((k, u) :: p.1, p.2))

/-- Model of `(*ServiceManager[T]).LookupQuery`: scan the keys; when
keys were missed and fallback is requested, merge the external query's
results into the map. -/
def lookupQuery (store : RStore) (keys : List String) (fallbackToDB : Bool)
    (dbResults : List URec) (cacheKeyName : String) :
    Except String (List (String × URec)) :=
  match lookupScan store keys with
  | .error e => .error e
  | .ok (hits, missed) =>
    if 0 < missed.length ∧ fallbackToDB = true then
      .ok (hits ++ lookupFromDB dbResults cacheKeyName)
    else .ok hits

/-- Result record of one reconciliation run (`CacheToDBResult`; the
wall-clock duration is not modelled). -/
structure SyncResult where
  totalScanned : ℕ
  totalSynced : ℕ
  recachedItems : ℕ
  mode : String
  deriving DecidableEq, Repr

/-- Model of `syncCacheToDatabase` in its periodic configuration
(`RecacheAfterSync` false): look the pattern's keys up with fallback
disabled, then batch-write the decoded records; `storeOk` stands for the
batch store write `SetQuery` (`service_model.go` lines 296-355)
succeeding or failing: it wraps all chunks in one REPEATABLE READ
transaction, so the batch commits or rolls back as a whole. -/
def syncCacheToDatabase (store : RStore) (patternKeys : List String)
    (storeOk : Bool) : Except String SyncResult :=
  match lookupQuery store patternKeys false [] "user" with
  | .error e => .error ("lookup failed: " ++ e)
  | .ok m =>
    let users := m.map Prod.snd
    if users.length = 0 then .ok ⟨0, 0, 0, "no_data"⟩
    else if storeOk then .ok ⟨m.length, users.length, 0, "cache_aside"⟩
    else .error "db write failed"

/-- Scanned entry that is present as a string but does not decode. -/
def undecodableAt (store : RStore) (k : String) : Bool :=
  match store k with
  | some (.badJson _) => true
  | some (.jobj fs) => (decUser fs).isNone
  | _ => false

/-- Record a scanned key decodes to, if any. -/
def decodesAt (store : RStore) (k : String) : Option URec :=
  match store k with
  | some (.jobj fs) => decUser fs
  | _ => none

/-- Decoded key-record pairs of a scan. -/
def hitsOf (store : RStore) (keys : List String) : List (String × URec) :=
  keys.filterMap (fun k => (decodesAt store k).map (fun u => (k, u)))

/-- Keys a scan records as missed. -/
def missedOf (store : RStore) (keys : List String) : List String :=
  keys.filter (fun k => !(store k).isSome || (store k) = some .notStr)

theorem lookupScan_ok (store : RStore) (keys : List String)
    (h : ∀ k ∈ keys, undecodableAt store k = false) :
    lookupScan store keys = .ok (hitsOf store keys, missedOf store keys) := by
  induction keys with
  | nil => rfl
  | cons k rest ih =>
    have hk := h k (List.mem_cons_self k rest)
    have hrest := ih (fun k2 hk2 => h k2 (List.mem_cons_of_mem k hk2))
    unfold lookupScan hitsOf missedOf
    unfold undecodableAt at hk
    rcases hs : store k with _ | cv
    · rw [hrest]
      simp [hitsOf, missedOf, decodesAt, hs, Except.map]
    · rcases cv with _ | s | fs
      · rw [hrest]
        simp [hitsOf, missedOf, decodesAt, hs, Except.map]
      · rw [hs] at hk
        simp at hk
      · rw [hs] at hk
        rcases hdec : decUser fs with _ | u
        · simp [hdec] at hk
        · simp [hitsOf, missedOf, decodesAt, hs, hdec, Except.map, hrest]

theorem lookupScan_error (store : RStore) (keys : List String)
    (h : ∃ k ∈ keys, undecodableAt store k = true) :
    ∃ e, lookupScan store keys = .error e := by
  induction keys with
  | nil => simp at h
  | cons k rest ih =>
    unfold lookupScan
    rcases hs : store k with _ | cv
    · have : ∃ k2 ∈ rest, undecodableAt store k2 = true := by
        rcases h with ⟨k2, hmem, hu⟩
        rcases List.mem_cons.mp hmem with rfl | hmem2
        · rw [undecodableAt, hs] at hu
          simp at hu
        · exact ⟨k2, hmem2, hu⟩
      rcases ih this with ⟨e, he⟩
      exact ⟨e, by rw [he]; rfl⟩
    · rcases cv with _ | s | fs
      · have : ∃ k2 ∈ rest, undecodableAt store k2 = true := by
          rcases h with ⟨k2, hmem, hu⟩
          rcases List.mem_cons.mp hmem with rfl | hmem2
          · rw [undecodableAt, hs] at hu
            simp at hu
          · exact ⟨k2, hmem2, hu⟩
        rcases ih this with ⟨e, he⟩
        exact ⟨e, by rw [he]; rfl⟩
      · exact ⟨_, rfl⟩
      · rcases hdec : decUser fs with _ | u
        · exact ⟨"failed to unmarshal cache data for key " ++ k, by simp [hdec]⟩
        · have : ∃ k2 ∈ rest, undecodableAt store k2 = true := by
            rcases h with ⟨k2, hmem, hu⟩
            rcases List.mem_cons.mp hmem with rfl | hmem2
            · rw [undecodableAt, hs] at hu
              simp [hdec] at hu
            · exact ⟨k2, hmem2, hu⟩
          rcases ih this with ⟨e, he⟩
          exact ⟨e, by simp [hdec, he, Except.map]⟩

/-- Cache contents with one entry whose payload does not decode. -/
def badStore : RStore := fun k =>
  if k = "user:1" then some (.badJson "oops") else none

/-- Claim C6 counterexample: one scanned entry with an undecodable
payload makes the whole reconciliation run return an error (with the
batch store write healthy), instead of being discarded and skipped. -/
theorem sync_decode_failure_aborts_run :
    syncCacheToDatabase badStore ["user:1", "user:2"] true =
      .error "lookup failed: failed to unmarshal cache data for key user:1" :=
  rfl

/-- Claim C6 (amended): during one reconciliation run, scanned entries
whose payload is absent or not a string are skipped without error
(partial success), and a whole-batch store failure is surfaced; but an
entry whose payload fails JSON decoding is not tolerated - it aborts the
run with an error. -/
theorem syncCacheToDatabase_tolerance (store : RStore)
    (keys : List String) (storeOk : Bool) :
    ((∃ k ∈ keys, undecodableAt store k = true) →
      ∃ e, syncCacheToDatabase store keys storeOk = .error e) ∧
    ((∀ k ∈ keys, undecodableAt store k = false) → storeOk = true →
      syncCacheToDatabase store keys storeOk =
        .ok (if (hitsOf store keys).length = 0 then ⟨0, 0, 0, "no_data"⟩
             else ⟨(hitsOf store keys).length, (hitsOf store keys).length,
                   0, "cache_aside"⟩)) ∧
    ((∀ k ∈ keys, undecodableAt store k = false) → storeOk = false →
      0 < (hitsOf store keys).length →
      syncCacheToDatabase store keys storeOk = .error "db write failed") := by
  refine ⟨?_, ?_, ?_⟩
  · intro h
    rcases lookupScan_error store keys h with ⟨e, he⟩
    exact ⟨"lookup failed: " ++ e, by
      unfold syncCacheToDatabase lookupQuery
      rw [he]⟩
  · intro h hok
    unfold syncCacheToDatabase lookupQuery
    rw [lookupScan_ok store keys h]
    subst hok
    simp
    split_ifs <;> rfl
  · intro h hbad hpos
    unfold syncCacheToDatabase lookupQuery
    rw [lookupScan_ok store keys h]
    subst hbad
    simp [List.length_map, Nat.pos_iff_ne_zero.mp hpos]

/-- Cache contents with one decodable entry. -/
def goodStore : RStore := fun k =>
  if k = "user:1" then some (.jobj (encUser ⟨1, "alice", 25⟩)) else none

/-- Witness for the amended C6: with one decodable entry and one missed
key the run succeeds and syncs exactly the decodable entry. -/
theorem syncCacheToDatabase_tolerance_witness :
    syncCacheToDatabase goodStore ["user:1", "user:2"] true =
      .ok ⟨1, 1, 0, "cache_aside"⟩ := by
  have h := (syncCacheToDatabase_tolerance goodStore ["user:1", "user:2"]
    true).2.1 (by decide) rfl
  simpa using h

/-! ## Batch lookup route
(`http_router/cache_get_router_group.go` lines 134-278: `executeLookup`
and `loadFromDBAndCache`). -/

/-- Go `strings.HasSuffix`. -/
def goHasSuffix (s suffix : String) : Bool :=
  decide (List.IsSuffix suffix.data s.data)

/-- The bookkeeping-key removal of `executeLookup` (lines 170-177): keep
only keys that end neither in `:version` nor in `:meta`. -/
def stripMetaKeys (keys : List String) : List String :=
  keys.filter (fun k => !goHasSuffix k ":version" && !goHasSuffix k ":meta")

/-- Decimal digit character. -/
def digChar (d : ℕ) : Char :=
  let r := d % 10
  if r = 0 then '0' else if r = 1 then '1' else if r = 2 then '2'
  else if r = 3 then '3' else if r = 4 then '4' else if r = 5 then '5'
  else if r = 6 then '6' else if r = 7 then '7' else if r = 8 then '8'
  else '9'

/-- Decimal digits of a natural number (model of `fmt.Sprintf("%d")`). -/
def natDecimal (n : ℕ) : List Char :=
  if h : n < 10 then [digChar n] else natDecimal (n / 10) ++ [digChar n]
  termination_by n
  decreasing_by exact Nat.div_lt_self (by omega) (by omega)

/-- Decimal string of a natural number. -/
def natDecStr (n : ℕ) : String := ⟨natDecimal n⟩

/-- Model of `loadFromDBAndCache`: translate the same predicates for the
relational backend (failure aborts), take the external query's result,
and key each record by `user:` plus its identity.  The batched cache
population it also performs does not matter to any claim and is
omitted. -/
def loadFromDBAndCache (params : List FilterParam) (queryResult : List URec) :
    Except String (List (String × URec) × List String) :=
  let build : List (String × URec) × List String :=
    (queryResult.map (fun u => ("user:" ++ natDecStr u.id, u)),
     queryResult.map (fun u => "user:" ++ natDecStr u.id))
  match params with
  | [] => .ok build
  | _ =>
    match translateBatch gormTranslate params with
    | .error _ => .error "invalid gorm filters"
    | .ok _ => .ok build

/-- Key-narrowing stages of `executeLookup`: the candidate keys after
the optional custom filter, narrowed through the translated key-value
filters when predicates are present. -/
def executeLookupKeys (store : RStore) (keys1 : List String)
    (params : List FilterParam) : Except String (List String) :=
  match params with
  | [] => .ok keys1
  | _ =>
    match translateBatch redisTranslate params with
    | .error _ => .error "invalid filters"
    | .ok fs =>
      match applyRedisFilters store keys1 fs with
      | .error _ => .error "filter application failed"
      | .ok (ks, _) => .ok ks

/-- Model of `executeLookup`: pattern-matched keys, optional custom
filter, translated filters, bookkeeping-key removal, then either the
relational fallback (empty candidate set with predicates or fallback
requested) or the batched cache fetch. -/
def executeLookup (store : RStore) (allKeys0 : List String)
    (customFilterFunc : Option (List String → List String))
    (useCustomFilter : Bool) (params : List FilterParam)
    (fallbackToDB : Bool) (dbQueryResult dbFallbackResults : List URec)
    (cacheKeyName : String) :
    Except String (List (String × URec) × List String) :=
  match executeLookupKeys store
      (match useCustomFilter, customFilterFunc with
        | true, some f => f allKeys0
        | _, _ => allKeys0) params with
  | .error e => .error e
  | .ok keys2 =>
    if (stripMetaKeys keys2).length = 0 then
      if 0 < params.length ∨ fallbackToDB = true then
        loadFromDBAndCache params dbQueryResult
      else .ok ([], [])
    else
      match lookupQuery store (stripMetaKeys keys2) fallbackToDB
          dbFallbackResults cacheKeyName with
      | .error e => .error ("lookup query failed: " ++ e)
      | .ok m => .ok (m, stripMetaKeys keys2)

theorem goHasSuffix_false_of_last (s t : String) (c : Char)
    (hs : s.data.getLast? = some c) (htne : t.data ≠ [])
    (hne : t.data.getLast? ≠ some c) : goHasSuffix s t = false := by
  unfold goHasSuffix
  simp only [decide_eq_false_iff_not]
  intro hsuf
  rcases hsuf with ⟨pre, hpre⟩
  rw [← hpre, List.getLast?_append_of_ne_nil pre htne] at hs
  exact hne hs

theorem digChar_ne (d : ℕ) :
    digChar d ≠ 'n' ∧ digChar d ≠ 'a' := by
  unfold digChar
  dsimp only
  split_ifs <;> exact ⟨by decide, by decide⟩

theorem natDecimal_getLast (n : ℕ) :
    (natDecimal n).getLast? = some (digChar n) := by
  unfold natDecimal
  split
  · rfl
  · exact List.getLast?_concat _

theorem natDecimal_ne_nil (n : ℕ) : natDecimal n ≠ [] := by
  intro h
  have := natDecimal_getLast n
  rw [h] at this
  exact Option.noConfusion this

theorem userKey_getLast (pre : String) (n : ℕ) :
    (pre ++ natDecStr n).data.getLast? = some (digChar n) := by
  rw [String.data_append]
  show (pre.data ++ natDecimal n).getLast? = some (digChar n)
  rw [List.getLast?_append_of_ne_nil _ (natDecimal_ne_nil n)]
  exact natDecimal_getLast n

/-- A key ending in a decimal digit ends neither in `:version` nor in
`:meta`. -/
theorem userKey_not_bookkeeping (pre : String) (n : ℕ) :
    goHasSuffix (pre ++ natDecStr n) ":version" = false ∧
    goHasSuffix (pre ++ natDecStr n) ":meta" = false := by
  constructor
  · refine goHasSuffix_false_of_last _ _ (digChar n) (userKey_getLast pre n)
      (by decide) ?_
    intro hcontra
    have : digChar n = 'n' := by
      have hversion : (":version" : String).data.getLast? = some 'n' := by decide
      rw [hversion] at hcontra
      exact (Option.some.injEq _ _ ▸ hcontra.symm)
    exact (digChar_ne n).1 this
  · refine goHasSuffix_false_of_last _ _ (digChar n) (userKey_getLast pre n)
      (by decide) ?_
    intro hcontra
    have : digChar n = 'a' := by
      have hmeta : (":meta" : String).data.getLast? = some 'a' := by decide
      rw [hmeta] at hcontra
      exact (Option.some.injEq _ _ ▸ hcontra.symm)
    exact (digChar_ne n).2 this

theorem goStructRepr_getLast (u : URec) :
    (goStructRepr u).data.getLast? = some '\x7d' := by
  unfold goStructRepr
  rw [String.data_append, List.getLast?_append_of_ne_nil _ (by decide)]
  decide

/-- A fallback key built from a record representation ends in a closing
brace, hence neither in `:version` nor in `:meta`. -/
theorem structKey_not_bookkeeping (name : String) (u : URec) :
    goHasSuffix (name ++ ":" ++ goStructRepr u) ":version" = false ∧
    goHasSuffix (name ++ ":" ++ goStructRepr u) ":meta" = false := by
  have hlast : (name ++ ":" ++ goStructRepr u).data.getLast? = some '\x7d' := by
    rw [String.data_append, List.getLast?_append_of_ne_nil _ ?hne]
    · exact goStructRepr_getLast u
    · intro h
      have := goStructRepr_getLast u
      rw [h] at this
      exact Option.noConfusion this
  constructor
  · exact goHasSuffix_false_of_last _ _ _ hlast (by decide) (by decide)
  · exact goHasSuffix_false_of_last _ _ _ hlast (by decide) (by decide)

theorem lookupScan_fst_mem (store : RStore) :
    ∀ (keys : List String) (hits : List (String × URec))
      (missed : List String),
    lookupScan store keys = .ok (hits, missed) →
    ∀ kv ∈ hits, kv.1 ∈ keys := by
  intro keys
  induction keys with
  | nil =>
    intro hits missed h kv hkv
    unfold lookupScan at h
    cases h
    simp at hkv
  | cons k rest ih =>
    intro hits missed h kv hkv
    unfold lookupScan at h
    split at h
    · rcases hr : lookupScan store rest with e | ⟨h2, m2⟩ <;> rw [hr] at h
      · exact Except.noConfusion h
      · have hpair : ((h2, k :: m2) : List (String × URec) × List String) =
            (hits, missed) := by
          simpa [Except.map] using h
        have hh : hits = h2 := by
          injection hpair with a b
          exact a.symm
        exact List.mem_cons_of_mem k (ih h2 m2 hr kv (hh ▸ hkv))
    · rcases hr : lookupScan store rest with e | ⟨h2, m2⟩ <;> rw [hr] at h
      · exact Except.noConfusion h
      · have hpair : ((h2, k :: m2) : List (String × URec) × List String) =
            (hits, missed) := by
          simpa [Except.map] using h
        have hh : hits = h2 := by
          injection hpair with a b
          exact a.symm
        exact List.mem_cons_of_mem k (ih h2 m2 hr kv (hh ▸ hkv))
    · exact Except.noConfusion h
    · split at h
      · exact Except.noConfusion h
      · rcases hr : lookupScan store rest with e | ⟨h2, m2⟩ <;> rw [hr] at h
        · exact Except.noConfusion h
        · rename_i u hu
          have hpair : (((k, u) :: h2, m2) :
              List (String × URec) × List String) = (hits, missed) := by
            simpa [Except.map] using h
          have hh : hits = (k, u) :: h2 := by
            injection hpair with a b
            exact a.symm
          rcases List.mem_cons.mp (hh ▸ hkv) with heq | hmem
          · rw [heq]
            exact List.mem_cons_self k rest
          · exact List.mem_cons_of_mem k (ih h2 m2 hr kv hmem)

/-- Keys of a `lookupQuery` result come from the scanned keys or from
the fallback construction. -/
theorem lookupQuery_keys (store : RStore) (keys : List String)
    (fb : Bool) (dbF : List URec) (name : String)
    (m : List (String × URec))
    (h : lookupQuery store keys fb dbF name = .ok m) :
    ∀ kv ∈ m, kv.1 ∈ keys ∨
      ∃ u, kv.1 = name ++ ":" ++ goStructRepr u := by
  unfold lookupQuery at h
  split at h
  · exact Except.noConfusion h
  · rename_i hits missed hscan
    intro kv hkv
    by_cases hc : 0 < missed.length ∧ fb = true
    · rw [if_pos hc] at h
      cases h
      rcases List.mem_append.mp hkv with hmem | hmem
      · exact Or.inl (lookupScan_fst_mem store keys hits missed hscan kv hmem)
      · unfold lookupFromDB at hmem
        rcases List.mem_map.mp hmem with ⟨u, _, hu⟩
        exact Or.inr ⟨u, by rw [← hu]⟩
    · rw [if_neg hc] at h
      injection h with h1
      rw [← h1] at hkv
      exact Or.inl (lookupScan_fst_mem store keys hits missed hscan kv hkv)

/-- Claim C10: for every key pattern result, custom filter, predicate
list and fallback flag, the batch lookup's returned key list and
key-to-record map contain no key ending in `:version` or `:meta` - such
keys are removed from the candidate set before the data fetch, and the
keys added by the two relational fallback paths end in a digit or a
closing brace. -/
theorem executeLookup_no_bookkeeping_keys (store : RStore)
    (allKeys0 : List String)
    (customFilterFunc : Option (List String → List String))
    (useCustomFilter : Bool) (params : List FilterParam)
    (fallbackToDB : Bool) (dbQueryResult dbFallbackResults : List URec)
    (cacheKeyName : String)
    (res : List (String × URec)) (ks : List String)
    (h : executeLookup store allKeys0 customFilterFunc useCustomFilter
      params fallbackToDB dbQueryResult dbFallbackResults cacheKeyName =
      .ok (res, ks)) :
    (∀ k ∈ ks, goHasSuffix k ":version" = false ∧
      goHasSuffix k ":meta" = false) ∧
    (∀ kv ∈ res, goHasSuffix kv.1 ":version" = false ∧
      goHasSuffix kv.1 ":meta" = false) := by
  unfold executeLookup at h
  split at h
  · exact Except.noConfusion h
  · rename_i keys2 hk2
    by_cases hlen : (stripMetaKeys keys2).length = 0
    · rw [if_pos hlen] at h
      by_cases hfb : 0 < params.length ∨ fallbackToDB = true
      · rw [if_pos hfb] at h
        unfold loadFromDBAndCache at h
        have hbuild :
            res = dbQueryResult.map (fun u => ("user:" ++ natDecStr u.id, u)) ∧
            ks = dbQueryResult.map (fun u => "user:" ++ natDecStr u.id) := by
          split at h
          · cases h
            exact ⟨rfl, rfl⟩
          · split at h
            · exact Except.noConfusion h
            · cases h
              exact ⟨rfl, rfl⟩
        rcases hbuild with ⟨hres, hks⟩
        constructor
        · intro k hk
          rw [hks] at hk
          rcases List.mem_map.mp hk with ⟨u, _, hu⟩
          rw [← hu]
          exact userKey_not_bookkeeping "user:" u.id
        · intro kv hkv
          rw [hres] at hkv
          rcases List.mem_map.mp hkv with ⟨u, _, hu⟩
          rw [← hu]
          exact userKey_not_bookkeeping "user:" u.id
      · rw [if_neg hfb] at h
        cases h
        exact ⟨fun k hk => absurd hk (List.not_mem_nil k),
               fun kv hkv => absurd hkv (List.not_mem_nil kv)⟩
    · rw [if_neg hlen] at h
      split at h
      · exact Except.noConfusion h
      · rename_i m hq
        injection h with h1
        injection h1 with ha hb
        rw [← ha, ← hb]
        have hstrip : ∀ k ∈ stripMetaKeys keys2,
            goHasSuffix k ":version" = false ∧
            goHasSuffix k ":meta" = false := by
          intro k hk
          have := List.of_mem_filter hk
          simp only [Bool.and_eq_true, Bool.not_eq_true'] at this
          exact this
        refine ⟨hstrip, ?_⟩
        intro kv hkv
        rcases lookupQuery_keys store (stripMetaKeys keys2) fallbackToDB
            dbFallbackResults cacheKeyName m hq kv hkv with hmem | ⟨u, hu⟩
        · exact hstrip kv.1 hmem
        · rw [hu]
          exact structKey_not_bookkeeping cacheKeyName u

/-- Witness for C10 at a concrete input: a candidate set containing a
version marker and a meta key returns only the plain object key. -/
theorem executeLookup_no_bookkeeping_keys_witness :
    goHasSuffix "user:1" ":version" = false ∧
    goHasSuffix "user:1" ":meta" = false := by
  have h := executeLookup_no_bookkeeping_keys goodStore
    ["user:1", "user:1:version", "user:1:meta"] none false [] false [] []
    "user" [("user:1", ⟨1, "alice", 25⟩)] ["user:1"] (by rfl)
  exact h.1 "user:1" (List.mem_singleton.mpr rfl)

/-! ## Stampede-protected lookup under concurrency
(`WritedownSingleWithLock`, second revision of
`service/writedown_single.go`, lines 237-277; `LookupSingleWithLock` in
the spec).  Each caller runs the function's Redis operations as atomic
steps of an interleaving semantics: read the key; try `SetNX` on the
lock key; on failure re-read once after the backoff and return the value
or the contention error; on success load from the store, write the
cache, delete the lock and return the loaded value.  The store load is
deterministic (`loadVal`); lock TTL expiry is not modelled - the
counterexample below needs no expiry. -/

/-- Program counter of one `WritedownSingleWithLock` caller. -/
inductive LPC where
  | start
  | missed
  | waiting
  | loading
  | writing
  | releasing
  | finished (r : Option ℕ)
  deriving DecidableEq, Repr

/-- Shared state plus each caller's position.  `loadCount` counts
invocations of the store load (`GetSingle`). -/
structure LockSys (n : ℕ) where
  pcs : Fin n → LPC
  cache : Option ℕ
  lock : Bool
  loadCount : ℕ

/-- Initial state: the key is missing, the lock is free, no caller has
started. -/
def lockInit (n : ℕ) : LockSys n :=
  ⟨fun _ => .start, none, false, 0⟩

/-- One atomic step of caller `i`, following the source line by line. -/
def lockStep (loadVal : ℕ) {n : ℕ} (s : LockSys n) (i : Fin n) : LockSys n :=
  match s.pcs i with
  | .start =>
    match s.cache with
    | some v => { s with pcs := Function.update s.pcs i (.finished (some v)) }
    | none => { s with pcs := Function.update s.pcs i .missed }
  | .missed =>
    if s.lock then { s with pcs := Function.update s.pcs i .waiting }
    else { s with pcs := Function.update s.pcs i .loading, lock := true }
  | .waiting =>
    match s.cache with
    | some v => { s with pcs := Function.update s.pcs i (.finished (some v)) }
    | none => { s with pcs := Function.update s.pcs i (.finished none) }
  | .loading =>
    { s with pcs := Function.update s.pcs i .writing,
             loadCount := s.loadCount + 1 }
  | .writing =>
    { s with pcs := Function.update s.pcs i .releasing, cache := some loadVal }
  | .releasing =>
    { s with pcs := Function.update s.pcs i (.finished (some loadVal)),
             lock := false }
  | .finished _ => s

/-- Run a schedule (a list of caller choices) from the initial state. -/
def lockRun (loadVal n : ℕ) (sched : List (Fin n)) : LockSys n :=
  sched.foldl (lockStep loadVal) (lockInit n)

/-- Claim C1 counterexample: two concurrent callers of the
stampede-protected lookup on the same missing key invoke the store load
twice.  Caller 1 reads the cache (miss) before caller 0 has populated
it; caller 0 then acquires the lock, loads, writes and releases; caller
1's `SetNX` now succeeds on the freed lock and it loads again.  The two
calls overlap in time (caller 1 starts before caller 0 finishes), both
complete, and the load ran twice - the "at most once" bound fails. -/
theorem lockRun_two_concurrent_loads :
    (lockRun 7 2 [1, 0, 0, 0, 0, 0, 1, 1, 1, 1]).loadCount = 2 ∧
    (lockRun 7 2 [1, 0, 0, 0, 0, 0, 1, 1, 1, 1]).pcs 0 = .finished (some 7) ∧
    (lockRun 7 2 [1, 0, 0, 0, 0, 0, 1, 1, 1, 1]).pcs 1 = .finished (some 7) := by
  refine ⟨rfl, rfl, rfl⟩

/-- A caller holds the lock and is inside the load/populate section. -/
def inCS : LPC → Bool
  | .loading => true
  | .writing => true
  | .releasing => true
  | _ => false

/-- Invariant: the critical section is empty when the lock is free and
holds at most one caller; the cache only ever holds the loaded value;
every caller that finished successfully returned the loaded value. -/
def LockInv (loadVal : ℕ) {n : ℕ} (s : LockSys n) : Prop :=
  (s.lock = false → ∀ i, inCS (s.pcs i) = false) ∧
  (∀ i j, inCS (s.pcs i) = true → inCS (s.pcs j) = true → i = j) ∧
  (∀ v, s.cache = some v → v = loadVal) ∧
  (∀ i v, s.pcs i = .finished (some v) → v = loadVal)

theorem lockInv_update_nonCS (loadVal : ℕ) {n : ℕ} (s : LockSys n)
    (i : Fin n) (pc2 : LPC) (h : LockInv loadVal s)
    (hcs : inCS pc2 = false)
    (hval : ∀ v, pc2 = .finished (some v) → v = loadVal) :
    LockInv loadVal { s with pcs := Function.update s.pcs i pc2 } := by
  obtain ⟨hoff, huniq, hcache, hfin⟩ := h
  unfold LockInv
  dsimp only
  refine ⟨?_, ?_, hcache, ?_⟩
  · intro hl j
    rw [Function.update_apply]
    split_ifs
    · exact hcs
    · exact hoff hl j
  · intro j k hj hk
    by_cases h1 : j = i <;> by_cases h2 : k = i
    · rw [h1, h2]
    · rw [Function.update_apply, if_pos h1, hcs] at hj
      exact absurd hj (by simp)
    · rw [Function.update_apply, if_pos h2, hcs] at hk
      exact absurd hk (by simp)
    · rw [Function.update_apply, if_neg h1] at hj
      rw [Function.update_apply, if_neg h2] at hk
      exact huniq j k hj hk
  · intro j v hj
    rw [Function.update_apply] at hj
    by_cases h1 : j = i
    · rw [if_pos h1] at hj
      exact hval v hj
    · rw [if_neg h1] at hj
      exact hfin j v hj

theorem lockInv_update_withinCS (loadVal : ℕ) {n : ℕ} (s : LockSys n)
    (i : Fin n) (pc2 : LPC) (h : LockInv loadVal s)
    (hold : inCS (s.pcs i) = true) (hcs : inCS pc2 = true)
    (cache2 : Option ℕ) (hc2 : ∀ v, cache2 = some v → v = loadVal)
    (lc2 : ℕ) :
    LockInv loadVal
      ⟨Function.update s.pcs i pc2, cache2, s.lock, lc2⟩ := by
  obtain ⟨hoff, huniq, hcache, hfin⟩ := h
  unfold LockInv
  dsimp only
  have hnf : ∀ v, pc2 ≠ .finished (some v) := by
    intro v hcontra
    rw [hcontra] at hcs
    exact absurd hcs (by simp [inCS])
  refine ⟨?_, ?_, hc2, ?_⟩
  · intro hl j
    have := hoff hl i
    rw [hold] at this
    exact absurd this (by simp)
  · intro j k hj hk
    by_cases h1 : j = i <;> by_cases h2 : k = i
    · rw [h1, h2]
    · rw [Function.update_apply, if_neg h2] at hk
      exact absurd (huniq i k hold hk).symm h2
    · rw [Function.update_apply, if_neg h1] at hj
      exact absurd (huniq i j hold hj).symm h1
    · rw [Function.update_apply, if_neg h1] at hj
      rw [Function.update_apply, if_neg h2] at hk
      exact huniq j k hj hk
  · intro j v hj
    rw [Function.update_apply] at hj
    by_cases h1 : j = i
    · rw [if_pos h1] at hj
      exact absurd hj (hnf v)
    · rw [if_neg h1] at hj
      exact hfin j v hj

theorem lockInv_acquire (loadVal : ℕ) {n : ℕ} (s : LockSys n) (i : Fin n)
    (h : LockInv loadVal s) (hl : s.lock = false) :
    LockInv loadVal
      ⟨Function.update s.pcs i .loading, s.cache, true, s.loadCount⟩ := by
  obtain ⟨hoff, huniq, hcache, hfin⟩ := h
  unfold LockInv
  dsimp only
  refine ⟨?_, ?_, hcache, ?_⟩
  · intro hcontra
    exact absurd hcontra (by simp)
  · intro j k hj hk
    by_cases h1 : j = i <;> by_cases h2 : k = i
    · rw [h1, h2]
    · rw [Function.update_apply, if_neg h2] at hk
      exact absurd hk (by rw [hoff hl k]; simp)
    · rw [Function.update_apply, if_neg h1] at hj
      exact absurd hj (by rw [hoff hl j]; simp)
    · rw [Function.update_apply, if_neg h1] at hj
      exact absurd hj (by rw [hoff hl j]; simp)
  · intro j v hj
    rw [Function.update_apply] at hj
    by_cases h1 : j = i
    · rw [if_pos h1] at hj
      exact LPC.noConfusion hj
    · rw [if_neg h1] at hj
      exact hfin j v hj

theorem lockInv_release (loadVal : ℕ) {n : ℕ} (s : LockSys n) (i : Fin n)
    (h : LockInv loadVal s) (hpc : s.pcs i = .releasing) :
    LockInv loadVal
      ⟨Function.update s.pcs i (.finished (some loadVal)), s.cache, false,
       s.loadCount⟩ := by
  obtain ⟨hoff, huniq, hcache, hfin⟩ := h
  unfold LockInv
  dsimp only
  have hiCS : inCS (s.pcs i) = true := by rw [hpc]; rfl
  have hnone : ∀ j, inCS (Function.update s.pcs i
      (.finished (some loadVal)) j) = false := by
    intro j
    rw [Function.update_apply]
    split_ifs with h1
    · rfl
    · by_cases hj : inCS (s.pcs j) = true
      · exact absurd (huniq i j hiCS hj).symm h1
      · simpa using hj
  refine ⟨?_, ?_, hcache, ?_⟩
  · intro _ j
    exact hnone j
  · intro j k hj _
    rw [hnone j] at hj
    exact absurd hj (by simp)
  · intro j v hj
    rw [Function.update_apply] at hj
    by_cases h1 : j = i
    · rw [if_pos h1] at hj
      injection hj with hr
      exact (Option.some.injEq _ _ ▸ hr).symm
    · rw [if_neg h1] at hj
      exact hfin j v hj

theorem lockInv_step (loadVal : ℕ) {n : ℕ} (s : LockSys n) (i : Fin n)
    (h : LockInv loadVal s) : LockInv loadVal (lockStep loadVal s i) := by
  rcases hpc : s.pcs i with _ | _ | _ | _ | _ | _ | r
  · rcases hc : s.cache with _ | v
    · rw [show lockStep loadVal s i =
          { s with pcs := Function.update s.pcs i .missed } from by
        unfold lockStep
        rw [hpc, hc]]
      exact lockInv_update_nonCS loadVal s i .missed h rfl
        (fun v hv => LPC.noConfusion hv)
    · rw [show lockStep loadVal s i =
          { s with pcs := Function.update s.pcs i (.finished (some v)) } from by
        unfold lockStep
        rw [hpc, hc]]
      refine lockInv_update_nonCS loadVal s i (.finished (some v)) h rfl ?_
      intro v2 hv2
      injection hv2 with hr
      exact h.2.2.1 v hc ▸ (Option.some.injEq _ _ ▸ hr).symm
  · by_cases hl : s.lock = true
    · rw [show lockStep loadVal s i =
          { s with pcs := Function.update s.pcs i .waiting } from by
        unfold lockStep
        rw [hpc, if_pos hl]]
      exact lockInv_update_nonCS loadVal s i .waiting h rfl
        (fun v hv => LPC.noConfusion hv)
    · rw [show lockStep loadVal s i =
          ⟨Function.update s.pcs i .loading, s.cache, true, s.loadCount⟩ from by
        unfold lockStep
        rw [hpc, if_neg hl]]
      exact lockInv_acquire loadVal s i h (by simpa using hl)
  · rcases hc : s.cache with _ | v
    · rw [show lockStep loadVal s i =
          { s with pcs := Function.update s.pcs i (.finished none) } from by
        unfold lockStep
        rw [hpc, hc]]
      refine lockInv_update_nonCS loadVal s i (.finished none) h rfl ?_
      intro v2 hv2
      injection hv2 with hr
      exact Option.noConfusion hr
    · rw [show lockStep loadVal s i =
          { s with pcs := Function.update s.pcs i (.finished (some v)) } from by
        unfold lockStep
        rw [hpc, hc]]
      refine lockInv_update_nonCS loadVal s i (.finished (some v)) h rfl ?_
      intro v2 hv2
      injection hv2 with hr
      exact h.2.2.1 v hc ▸ (Option.some.injEq _ _ ▸ hr).symm
  · rw [show lockStep loadVal s i =
        ⟨Function.update s.pcs i .writing, s.cache, s.lock,
         s.loadCount + 1⟩ from by
      unfold lockStep
      rw [hpc]]
    exact lockInv_update_withinCS loadVal s i .writing h
      (by rw [hpc]; rfl) rfl s.cache h.2.2.1 (s.loadCount + 1)
  · rw [show lockStep loadVal s i =
        ⟨Function.update s.pcs i .releasing, some loadVal, s.lock,
         s.loadCount⟩ from by
      unfold lockStep
      rw [hpc]]
    exact lockInv_update_withinCS loadVal s i .releasing h
      (by rw [hpc]; rfl) rfl (some loadVal)
      (fun v hv => (Option.some.injEq _ _ ▸ hv).symm) s.loadCount
  · rw [show lockStep loadVal s i =
        ⟨Function.update s.pcs i (.finished (some loadVal)), s.cache, false,
         s.loadCount⟩ from by
      unfold lockStep
      rw [hpc]]
    exact lockInv_release loadVal s i h hpc
  · rw [show lockStep loadVal s i = s from by
      unfold lockStep
      rw [hpc]]
    exact h

theorem lockInv_init (loadVal n : ℕ) : LockInv loadVal (lockInit n) := by
  refine ⟨fun _ _ => rfl, ?_, ?_, ?_⟩
  · intro j k hj
    exact absurd hj (by simp [lockInit, inCS])
  · intro v hv
    exact Option.noConfusion hv
  · intro j v hj
    exact LPC.noConfusion hj

theorem lockInv_run (loadVal n : ℕ) (sched : List (Fin n)) :
    LockInv loadVal (lockRun loadVal n sched) := by
  unfold lockRun
  have hgen : ∀ (l : List (Fin n)) (s : LockSys n), LockInv loadVal s →
      LockInv loadVal (l.foldl (lockStep loadVal) s) := by
    intro l
    induction l with
    | nil => exact fun s hs => hs
    | cons a t ih =>
      intro s hs
      exact ih (lockStep loadVal s a) (lockInv_step loadVal s a hs)
  exact hgen sched (lockInit n) (lockInv_init loadVal n)

/-- Claim C1 (amended): for any number of concurrent
stampede-protected lookups on the same missing key and any
interleaving, the lock serialises the store load - no two callers are
ever simultaneously in the load-and-populate section - and every caller
that completes successfully observes the same value, the loaded one.
(The load may run more than once across non-overlapping lock tenures,
and a caller that loses the race and still misses on its re-check fails
with the contention error instead of observing the value.) -/
theorem lockRun_serialised_same_value (loadVal n : ℕ)
    (sched : List (Fin n)) :
    (∀ i j : Fin n, i ≠ j →
      ¬(inCS ((lockRun loadVal n sched).pcs i) = true ∧
        inCS ((lockRun loadVal n sched).pcs j) = true)) ∧
    (∀ (i : Fin n) (v : ℕ),
      (lockRun loadVal n sched).pcs i = .finished (some v) →
      v = loadVal) := by
  have hinv := lockInv_run loadVal n sched
  exact ⟨fun i j hne hcontra =>
      hne (hinv.2.1 i j hcontra.1 hcontra.2),
    fun i v hv => hinv.2.2.2 i v hv⟩

/-- Witness for the amended C1 on the counterexample schedule. -/
theorem lockRun_serialised_same_value_witness :
    ¬(inCS ((lockRun 7 2 [1, 0, 0, 0, 0, 0, 1, 1, 1, 1]).pcs 0) = true ∧
      inCS ((lockRun 7 2 [1, 0, 0, 0, 0, 0, 1, 1, 1, 1]).pcs 1) = true) ∧
    (7 : ℕ) = 7 := by
  refine ⟨(lockRun_serialised_same_value 7 2 [1, 0, 0, 0, 0, 0, 1, 1, 1, 1]).1
      0 1 (by decide), ?_⟩
  exact (lockRun_serialised_same_value 7 2 [1, 0, 0, 0, 0, 0, 1, 1, 1, 1]).2
    0 7 rfl

end AbstractManager
